import Mathlib

/-!
# taste: random row sampler

A shallow embedding of `taste/root.go` and `taste/random/random.go`.

Go values are embedded as follows.

* `int`, `int64` are mathematical integers; the one narrowing conversion of the
  program, `int(m.Int64())`, is written out as a wrap to 64 bits.
* `uint8` values are natural numbers, every operation reduced modulo 256.
* A slice is a `List`; `make([]T, n)` is `List.replicate n zero`, an indexed
  store `s[i] = v` is `List.set`, an indexed load is `s[i]?` followed by a panic
  on `none`.
* A function returning `(T, error)` returns an `Outcome T`, which separates a
  normal return, an error handed to the caller and a run-time panic.
* `map[string]T` is an association list with unique keys (`GoMap`).
-/

set_option autoImplicit false

namespace Taste

/-! ## Outcomes -/

/-- Errors that the program returns to its caller (the `fmt.Errorf` sites). -/
inductive Err where
  /-- The text `rand.Int err: ...` of `indices`. -/
  | randInt
  /-- The text `read parquet file err: ...` of `parquetRow`. -/
  | readParquetFile
  /-- The text `create parquet reader err: ...` of `parquetRow`. -/
  | createParquetReader
  /-- The text `SkipRows err: ...` of `parquetRow`. -/
  | skipRows
  /-- The text `ReadByNumber err: ...` of `parquetRow`. -/
  | readByNumber
  /-- The text `os.Open err: ...` of `csvRow`. -/
  | osOpen
  /-- The text `ReadAll err: ...` of `csvRow`. -/
  | readAll
  /-- The text `unrecognized extension for file "fp"` of the root command. -/
  | unrecognizedExtension (fp : String)
  /-- The text `json.Marshal err: ...` of the root command. -/
  | jsonMarshal
  /-- The text `json.MarshalIndent err: ...` of the root command. -/
  | jsonMarshalIndent
  deriving DecidableEq, Repr

/-- Run-time panics of the Go runtime and of the standard library. -/
inductive Crash where
  /-- The panic of `make([]T, n)` for a negative `n`. -/
  | makesliceLenOutOfRange
  /-- The panic of `rand.Int` for an argument `max <= 0`. -/
  | randIntArgNotPositive
  /-- The panic of an indexed access `s[index]` outside `0 <= index < length`. -/
  | indexOutOfRange (index : Int) (length : Nat)
  deriving DecidableEq, Repr

/-- Result of running a Go function of result type `(T, error)`. -/
inductive Outcome (α : Type) where
  /-- Normal return with a nil error. -/
  | ok (a : α)
  /-- Return with a non-nil error. -/
  | error (e : Err)
  /-- The function does not return: the goroutine panics. -/
  | panicked (c : Crash)
  deriving DecidableEq, Repr

/-! ## `indices` -/

/-- The random source as seen by `indices`: the value that the `k`-th call of
`rand.Int(rand.Reader, max)` draws, or `none` when the reader fails. -/
abbrev RandReader := Nat → Option Int

/-- Call number `call` of `rand.Int(rand.Reader, max)`: panics for `max <= 0`; returns 0
without reading the reader for `max = 1`, where 0 is the only value below `max`; hands
on the failure of the reader, and otherwise returns the drawn value. -/
def randInt (rd : RandReader) (call : Nat) (max : Int) : Outcome Int :=
  if max ≤ 0 then .panicked .randIntArgNotPositive
  else if max = 1 then .ok 0
  else
    match rd call with
    | none => .error .randInt
    | some m => .ok m

/-- The conversion `int(x)` of an integer to the 64 bit `int`. -/
def toInt64 (x : Int) : Int := (x + 2 ^ 63) % 2 ^ 64 - 2 ^ 63

/-- The loop `for i := 0; i < n; i++ { m, err := rand.Int(..); ..; sl[i] = int(m.Int64()) }`
of `indices`, with `k` iterations left to run from loop counter `i`. -/
def indicesFill (rd : RandReader) (total : Int) : Nat → Nat → List Int → Outcome (List Int)
  | 0, _, sl => .ok sl
  | k + 1, i, sl =>
    match randInt rd i total with
    | .ok m => indicesFill rd total k (i + 1) (sl.set i (toInt64 m))
    | .error _ => .error .randInt
    | .panicked c => .panicked c

/-- The call `sort.Slice(sl, func(i, j int) bool { return sl[i] < sl[j] })`: the slice
rearranged in ascending order. The ascending rearrangement of a list of integers is
unique, so the sorting algorithm of the library does not show in the result. -/
def sortSlice (sl : List Int) : List Int := sl.insertionSort (fun a b => a ≤ b)

/-- The function `indices(total int64, n int) (sl []int, err error)`. -/
def indices (rd : RandReader) (total : Int) (n : Int) : Outcome (List Int) :=
  if n < 0 then .panicked .makesliceLenOutOfRange
  else
    match indicesFill rd total n.toNat 0 (List.replicate n.toNat 0) with
    | .ok sl => .ok (sortSlice sl)
    | .error e => .error e
    | .panicked c => .panicked c

/-! ## Records -/

/-- A Go `map[string]V`: an association list in which no key occurs twice. The nil map
and the empty map are both `[]`. -/
abbrev GoMap (V : Type) := List (String × V)

/-- The store `m[k] = v`: overwrites the value of a key that is present, adds the key
otherwise. -/
def GoMap.store {V : Type} : GoMap V → String → V → GoMap V
  | [], k, v => [(k, v)]
  | (k', v') :: m, k, v =>
    if k' = k then (k, v) :: m else (k', v') :: GoMap.store m k v

/-- The load `m[k]` (with the presence flag as the `Option`). -/
def GoMap.load {V : Type} : GoMap V → String → Option V
  | [], _ => none
  | (k', v') :: m, k => if k' = k then some v' else GoMap.load m k

/-- The keys of a map (its field names when it is a record). -/
def GoMap.keys {V : Type} (m : GoMap V) : List String := m.map Prod.fst

/-- The value of type `interface{}` that `parquetRow` and `csvRow` return: one bare
record (`rows[0]`) or the slice of records (`rows`). -/
inductive Sample (ρ : Type) where
  /-- One record, not wrapped in a slice. -/
  | single (r : ρ)
  /-- The slice of records. -/
  | many (rs : List ρ)
  deriving DecidableEq, Repr

/-! ## The parquet reader (library `parquet-go`)

The reader is code of a library, not of this repository. The model keeps what
`parquetRow` uses of it: the footer with the row groups, and a read cursor over the rows
of the file that only moves forward. A row object is the list of the field values of
the decoded struct. The reader is the one of a well-formed file, so that neither
`SkipRows` nor `ReadByNumber` returns an error; two counters record how many rows were
skipped and how many were decoded. -/

/-- A parquet file as `reader.NewParquetReader` presents it. -/
structure ParquetFile (V : Type) where
  /-- The rows of each row group (`Footer.RowGroups`, with `NumRows` the length). -/
  rowGroups : List (List (List V))
  /-- The function `SchemaHandler.GetExName`: external name of a schema element. -/
  getExName : Nat → String

/-- State of a `ParquetReader`. -/
structure ParquetReader (V : Type) where
  /-- All rows of the file, row group after row group. -/
  rows : List (List V)
  /-- Read cursor: number of rows consumed so far. -/
  pos : Nat
  /-- Rows passed over by `SkipRows` so far. -/
  skipped : Nat
  /-- Rows decoded by `ReadByNumber` so far. -/
  decoded : Nat
  deriving DecidableEq, Repr

/-- The reader that `reader.NewParquetReader` returns: cursor on the first row. -/
def NewParquetReader {V : Type} (pf : ParquetFile V) : ParquetReader V :=
  { rows := pf.rowGroups.flatten, pos := 0, skipped := 0, decoded := 0 }

/-- The method `SkipRows(num int64)`: returns at once for `num <= 0`, and otherwise
moves the cursor `num` rows forward, stopping at the end of the file. -/
def SkipRows {V : Type} (pr : ParquetReader V) (num : Int) : Outcome (ParquetReader V) :=
  if num ≤ 0 then .ok pr
  else
    let k := min num.toNat (pr.rows.length - pr.pos)
    .ok { pr with pos := pr.pos + k, skipped := pr.skipped + k }

/-- The method `ReadByNumber(maxReadNumber int)`: decodes up to `maxReadNumber` rows at
the cursor, fewer (possibly none) at the end of the file. -/
def ReadByNumber {V : Type} (pr : ParquetReader V) (maxReadNumber : Nat) :
    Outcome (ParquetReader V × List (List V)) :=
  let sl := (pr.rows.drop pr.pos).take maxReadNumber
  .ok ({ pr with pos := pr.pos + sl.length, decoded := pr.decoded + sl.length }, sl)

/-! ## `parquetRow` -/

/-- The loop `for i := 0; i < n; i++ { m[pr.SchemaHandler.GetExName(i+1)] = v.Field(i) }`
of `rowObjAsMap`, over the fields that are left, `i` being the loop counter. -/
def rowObjAsMapFill {V : Type} (getExName : Nat → String) : List V → Nat → GoMap V → GoMap V
  | [], _, m => m
  | f :: fields, i, m => rowObjAsMapFill getExName fields (i + 1) (m.store (getExName (i + 1)) f)

/-- The function `rowObjAsMap(pr, obj)`. -/
def rowObjAsMap {V : Type} (getExName : Nat → String) (obj : List V) : GoMap V :=
  rowObjAsMapFill getExName obj 0 []

/-- The record that direct indexing at position `p` of the materialized rows gives. -/
def recordAt {V : Type} (getExName : Nat → String) (table : List (List V)) (p : Nat) :
    GoMap V :=
  rowObjAsMap getExName (table.getD p [])

/-- The fetch loop of `parquetRow`,
`for i, j := range ind { SkipRows(j - last); sl := ReadByNumber(1); rows[i] = rowObjAsMap(pr, sl[0]); last = j + 1 }`,
over the positions that are left; `i` is the loop counter. Returns the reader and
`rows` as they are when the loop ends. -/
def fetchLoop {V : Type} (getExName : Nat → String) :
    List Int → Nat → Int → ParquetReader V → List (GoMap V) →
      Outcome (ParquetReader V × List (GoMap V))
  | [], _, _, pr, rows => .ok (pr, rows)
  | j :: ind, i, last, pr, rows =>
    match SkipRows pr (j - last) with
    | .error _ => .error .skipRows
    | .panicked c => .panicked c
    | .ok pr1 =>
      match ReadByNumber pr1 1 with
      | .error _ => .error .readByNumber
      | .panicked c => .panicked c
      | .ok (pr2, sl) =>
        match sl[0]? with
        | none => .panicked (.indexOutOfRange 0 sl.length)
        | some obj =>
          if i < rows.length then
            fetchLoop getExName ind (i + 1) (j + 1) pr2 (rows.set i (rowObjAsMap getExName obj))
          else .panicked (.indexOutOfRange i rows.length)

/-- The end of `parquetRow` and of `csvRow`:
`if len(rows) > 1 { return rows, nil }; return rows[0], nil`. -/
def shape {ρ : Type} (rows : List ρ) : Outcome (Sample ρ) :=
  if rows.length > 1 then .ok (.many rows)
  else
    match rows[0]? with
    | some r => .ok (.single r)
    | none => .panicked (.indexOutOfRange 0 rows.length)

/-- The function `parquetRow(fp, num)` from the point where the file is open and the
reader is created. -/
def parquetRowOf {V : Type} (rd : RandReader) (pf : ParquetFile V) (num : Int) :
    Outcome (Sample (GoMap V)) :=
  match pf.rowGroups with
  | [] => .panicked (.indexOutOfRange 0 0)
  | g :: _ =>
    match indices rd g.length num with
    | .error e => .error e
    | .panicked c => .panicked c
    | .ok ind =>
      if num < 0 then .panicked .makesliceLenOutOfRange
      else
        match fetchLoop pf.getExName ind 0 0 (NewParquetReader pf)
            (List.replicate num.toNat []) with
        | .error e => .error e
        | .panicked c => .panicked c
        | .ok (_, rows) => shape rows

/-! ## `csvRow` -/

/-- The loop `for k, v := range allRows[j] { m[columns[k]] = v }` of `csvRow`, over the
fields that are left; `k` is the loop counter. -/
def csvRecordFill (columns : List String) :
    List String → Nat → GoMap String → Outcome (GoMap String)
  | [], _, m => .ok m
  | v :: fields, k, m =>
    match columns[k]? with
    | none => .panicked (.indexOutOfRange k columns.length)
    | some c => csvRecordFill columns fields (k + 1) (m.store c v)

/-- The record that `csvRow` builds for the data row `row`. -/
def csvRecord (columns row : List String) : Outcome (GoMap String) :=
  csvRecordFill columns row 0 []

/-- The indexed load `s[j]` with an index of type `int`. -/
def index {α : Type} (s : List α) (j : Int) : Option α :=
  if j < 0 then none else s[j.toNat]?

/-- The loop `for i, j := range ind { ..; rows[i] = m }` of `csvRow`, over the positions
that are left; `i` is the loop counter. -/
def csvLoop (columns : List String) (allRows : List (List String)) :
    List Int → Nat → List (GoMap String) → Outcome (List (GoMap String))
  | [], _, rows => .ok rows
  | j :: ind, i, rows =>
    match index allRows j with
    | none => .panicked (.indexOutOfRange j allRows.length)
    | some row =>
      match csvRecord columns row with
      | .error e => .error e
      | .panicked c => .panicked c
      | .ok m =>
        if i < rows.length then csvLoop columns allRows ind (i + 1) (rows.set i m)
        else .panicked (.indexOutOfRange i rows.length)

/-- The function `csvRow(fp, num, delimiter)` from the result of `r.ReadAll()` on:
`readAll` is `none` when `ReadAll` returns an error, and the parsed records (header
first) otherwise. -/
def csvRowOf (rd : RandReader) (readAll : Option (List (List String))) (num : Int) :
    Outcome (Sample (GoMap String)) :=
  match readAll with
  | none => .error .readAll
  | some [] => .panicked (.indexOutOfRange 0 0)
  | some (columns :: allRows) =>
    match indices rd allRows.length num with
    | .error e => .error e
    | .panicked c => .panicked c
    | .ok ind =>
      if num < 0 then .panicked .makesliceLenOutOfRange
      else
        match csvLoop columns allRows ind 0 (List.replicate num.toNat []) with
        | .error e => .error e
        | .panicked c => .panicked c
        | .ok rows => shape rows

/-! ## The root command -/

/-- The call `strings.Split(s, ".")` on the characters of `s`. -/
def splitDot : List Char → List (List Char)
  | [] => [[]]
  | c :: cs =>
    if c = '.' then [] :: splitDot cs
    else
      match splitDot cs with
      | [] => [[c]]
      | part :: parts => (c :: part) :: parts

/-- The value `rows interface{}` of the root command. -/
inductive Rows (V : Type) where
  /-- The result of `parquetRow`. -/
  | columnar (s : Sample (GoMap V))
  /-- The result of `csvRow`. -/
  | delimited (s : Sample (GoMap String))
  deriving DecidableEq, Repr

/-- What the root command reads from outside: the random source, the file system seen
through the two file libraries, and the JSON encoder. -/
structure Env (V : Type) where
  /-- The reader `rand.Reader`. -/
  randReader : RandReader
  /-- The file at a path as a parquet file: `none` when `local.NewLocalFileReader`
  fails, `some none` when `reader.NewParquetReader` fails. -/
  parquetFile : String → Option (Option (ParquetFile V))
  /-- The file at a path as delimited text: `none` when `os.Open` fails, and otherwise
  the result of `ReadAll` for each value of `r.Comma` (`none` when it returns an
  error). -/
  csvFile : String → Option (Char → Option (List (List String)))
  /-- The calls `json.Marshal(rows)` (for `false`) and
  `json.MarshalIndent(rows, "", "    ")` (for `true`); `none` when they return an
  error. -/
  jsonMarshal : Bool → Rows V → Option String

/-- The function `parquetRow(fp string, num int)`. -/
def parquetRow {V : Type} (env : Env V) (fp : String) (num : Int) :
    Outcome (Sample (GoMap V)) :=
  match env.parquetFile fp with
  | none => .error .readParquetFile
  | some none => .error .createParquetReader
  | some (some pf) => parquetRowOf env.randReader pf num

/-- The delimiter of the reader of `csvRow`: the comma of `csv.NewReader`, replaced by
the first rune of `delimiter` when `delimiter != ""`. -/
def comma (delimiter : String) : Char :=
  match delimiter.data with
  | [] => ','
  | c :: _ => c

/-- The function `csvRow(fp string, num int, delimiter string)`. -/
def csvRow {V : Type} (env : Env V) (fp : String) (num : Int) (delimiter : String) :
    Outcome (Sample (GoMap String)) :=
  match env.csvFile fp with
  | none => .error .osOpen
  | some readAll => csvRowOf env.randReader (readAll (comma delimiter)) num

/-- The switch on `ext` of the root command. -/
def dispatch {V : Type} (env : Env V) (fp : String) (ext : List Char) (num : Int)
    (delimiter : String) : Outcome (Rows V) :=
  if ext = "parquet".data ∨ ext = "parq".data then
    match parquetRow env fp num with
    | .ok rows => .ok (.columnar rows)
    | .error e => .error e
    | .panicked c => .panicked c
  else if ext = "csv".data then
    match csvRow env fp num delimiter with
    | .ok rows => .ok (.delimited rows)
    | .error e => .error e
    | .panicked c => .panicked c
  else .error (.unrecognizedExtension fp)

/-- The end of `RunE`: encode `rows` as JSON and print the line. The result `.ok out`
stands for the one line `out` that `cmd.Println` writes; nothing is written otherwise. -/
def emit {V : Type} (env : Env V) (pretty : Bool) (rows : Rows V) : Outcome String :=
  match env.jsonMarshal pretty rows with
  | some b => .ok b
  | none => .error (if pretty then .jsonMarshalIndent else .jsonMarshal)

/-- The function `RunE` of the root command, with the argument `fp` and the values of
the flags `pretty`, `delimiter` and `num-rows`. -/
def runE {V : Type} (env : Env V) (fp : String) (pretty : Bool) (delimiter : String)
    (num : Int) : Outcome String :=
  match (splitDot fp.data).getLast? with
  | none => .panicked (.indexOutOfRange (-1) 0)
  | some ext =>
    match dispatch env fp ext num delimiter with
    | .error e => .error e
    | .panicked c => .panicked c
    | .ok rows => emit env pretty rows

/-! ## Package `random` -/

/-- The loop `for i := uint8(0); i < n; i++ { result[i] = min + uint8(i) }` of
`asciiRange`, all arithmetic in `uint8`; `fuel` bounds the number of iterations. -/
def asciiRangeFill (min n : Nat) : Nat → Nat → List Nat → List Nat
  | 0, _, result => result
  | fuel + 1, i, result =>
    if i < n then
      asciiRangeFill min n fuel ((i + 1) % 256) (result.set i ((min + i) % 256))
    else result

/-- The function `asciiRange(min, max uint8) string`, the string as its list of bytes.
The counter `i` takes at most 256 values before the loop condition can hold again, so
256 iterations are enough for every run that ends (see `asciiRangeFill_fuel`). -/
def asciiRange (min max : Nat) : List Nat :=
  let n := ((max + 256 - min) % 256 + 1) % 256
  asciiRangeFill min n 256 0 (List.replicate n 0)

/-- The variable `Digits`. -/
def Digits : List Nat := asciiRange 48 57

/-- The variable `UppercaseAlpha`. -/
def UppercaseAlpha : List Nat := asciiRange 65 90

/-- The variable `LowercaseAlpha`. -/
def LowercaseAlpha : List Nat := asciiRange 97 122

/-- The variable `VisibleASCII`. -/
def VisibleASCII : List Nat := asciiRange 33 126

/-- The bytes of a string of ASCII characters. -/
def bytes (s : String) : List Nat := s.data.map Char.toNat

/-! ## Lemmas on `indices` -/

theorem toInt64_of_lt (x : Int) (h0 : 0 ≤ x) (h1 : x < 2 ^ 63) : toInt64 x = x := by
  unfold toInt64
  omega

theorem indicesFill_ok (rd : RandReader) (total : Int) (h1 : total < 2 ^ 63) :
    ∀ (k i : Nat) (sl : List Int),
      (∀ j, i ≤ j → j < i + k → ∃ v, rd j = some v ∧ 0 ≤ v ∧ v < total) →
      (∀ v ∈ sl, 0 ≤ v ∧ v < total) →
      ∃ out, indicesFill rd total k i sl = .ok out ∧ out.length = sl.length ∧
        ∀ v ∈ out, 0 ≤ v ∧ v < total := by
  intro k
  induction k with
  | zero =>
    intro i sl _ hsl
    exact ⟨sl, rfl, rfl, hsl⟩
  | succ k ih =>
    intro i sl hrd hsl
    obtain ⟨v, hv, hv0, hvt⟩ : ∃ v, randInt rd i total = .ok v ∧ 0 ≤ v ∧ v < total := by
      obtain ⟨v, hv, hv0, hvt⟩ := hrd i (le_refl i) (by omega)
      have hpos : ¬ total ≤ 0 := by omega
      by_cases hone : total = 1
      · exact ⟨0, by simp [randInt, hone], le_refl 0, by omega⟩
      · exact ⟨v, by simp [randInt, hpos, hone, hv], hv0, hvt⟩
    have hstep : indicesFill rd total (k + 1) i sl
        = indicesFill rd total k (i + 1) (sl.set i (toInt64 v)) := by
      simp [indicesFill, hv]
    have hset : ∀ w ∈ sl.set i (toInt64 v), 0 ≤ w ∧ w < total := by
      intro w hw
      rcases List.mem_or_eq_of_mem_set hw with hw | hw
      · exact hsl w hw
      · rw [hw, toInt64_of_lt v hv0 (by omega)]
        exact ⟨hv0, hvt⟩
    obtain ⟨out, hout, hlen, hmem⟩ :=
      ih (i + 1) (sl.set i (toInt64 v)) (fun j hj hj2 => hrd j (by omega) (by omega)) hset
    exact ⟨out, by rw [hstep, hout], by simpa using hlen, hmem⟩

theorem sortSlice_length (sl : List Int) : (sortSlice sl).length = sl.length :=
  List.length_insertionSort _ sl

theorem sortSlice_mem (sl : List Int) (v : Int) : v ∈ sortSlice sl ↔ v ∈ sl :=
  (List.perm_insertionSort _ sl).mem_iff

theorem sortSlice_sorted (sl : List Int) : (sortSlice sl).Sorted (fun a b => a ≤ b) :=
  List.sorted_insertionSort _ sl

theorem indicesFill_error_eq (rd : RandReader) (total : Int) :
    ∀ (k i : Nat) (sl : List Int) (e : Err),
      indicesFill rd total k i sl = .error e → e = .randInt := by
  intro k
  induction k with
  | zero =>
    intro i sl e h
    exact absurd h (by simp [indicesFill])
  | succ k ih =>
    intro i sl e h
    simp only [indicesFill] at h
    split at h
    · exact ih _ _ _ h
    · simp only [Outcome.error.injEq] at h
      exact h.symm
    · exact absurd h (by simp)

theorem indicesFill_reader_fails (rd : RandReader) (total : Int) (htotal : 2 ≤ total) :
    ∀ (k i : Nat) (sl : List Int), (∃ j, i ≤ j ∧ j < i + k ∧ rd j = none) →
      indicesFill rd total k i sl = .error .randInt := by
  have hpos : ¬ total ≤ 0 := by omega
  have hone : ¬ total = 1 := by omega
  intro k
  induction k with
  | zero =>
    intro i sl h
    obtain ⟨j, h1, h2, _⟩ := h
    omega
  | succ k ih =>
    intro i sl h
    obtain ⟨j, h1, h2, hj⟩ := h
    cases hi : rd i with
    | none => simp [indicesFill, randInt, hpos, hone, hi]
    | some m =>
      have hne : j ≠ i := fun e => by
        rw [e, hi] at hj
        exact absurd hj (by simp)
      simp only [indicesFill, randInt, hpos, hone, hi, if_false]
      exact ih (i + 1) _ ⟨j, by omega, by omega, hj⟩

/-! ## Claims on `indices` -/

/-- C1: for `total >= 1` (an `int64`) and `n >= 1`, whenever every draw of the random
source is some integer in `[0, total)`, `indices total n` returns with a nil error a
slice of exactly `n` integers, each in `[0, total)`, in ascending (non-decreasing)
order. -/
theorem indices_count_range_sorted (rd : RandReader) (total n : Int)
    (htotal : 1 ≤ total) (hint64 : total < 2 ^ 63) (hn : 1 ≤ n)
    (hrd : ∀ i : Nat, (i : Int) < n → ∃ v, rd i = some v ∧ 0 ≤ v ∧ v < total) :
    ∃ sl, indices rd total n = .ok sl ∧ (sl.length : Int) = n ∧
      (∀ v ∈ sl, 0 ≤ v ∧ v < total) ∧ sl.Sorted (fun a b => a ≤ b) := by
  have hzero : ∀ v ∈ List.replicate n.toNat (0 : Int), 0 ≤ v ∧ v < total := by
    intro v hv
    rw [List.eq_of_mem_replicate hv]
    omega
  obtain ⟨out, hout, hlen, hmem⟩ :=
    indicesFill_ok rd total hint64 n.toNat 0 _ (fun j _ hj => hrd j (by omega)) hzero
  refine ⟨sortSlice out, ?_, ?_, ?_, sortSlice_sorted out⟩
  · have hneg : ¬ n < 0 := by omega
    simp [indices, hneg, hout]
  · rw [sortSlice_length, hlen, List.length_replicate]
    omega
  · intro v hv
    exact hmem v ((sortSlice_mem out v).1 hv)

/-- Witness of C1: three draws `2, 0, 1` out of `total = 3`. -/
theorem indices_count_range_sorted_witness :
    ∃ sl, indices (fun i => some ((2 * (i : Int) + 2) % 3)) 3 3 = .ok sl ∧
      (sl.length : Int) = 3 ∧ (∀ v ∈ sl, 0 ≤ v ∧ v < 3) ∧ sl.Sorted (fun a b => a ≤ b) :=
  indices_count_range_sorted (fun i => some ((2 * (i : Int) + 2) % 3)) 3 3
    (by decide) (by decide) (by decide)
    (fun i _ => ⟨(2 * (i : Int) + 2) % 3, rfl, by omega, by omega⟩)

/-- C4, as stated, fails: with `n = 0` the function returns the empty slice and a nil
error, for `total = 0` as for `total = 5`; with `total = 0` and `n = 1` it panics
inside `rand.Int`; with `n = -1` it panics inside `make`. No range error is returned. -/
theorem indices_range_error_counterexample :
    indices (fun _ => some 0) 0 0 = .ok [] ∧
    indices (fun _ => some 0) 5 0 = .ok [] ∧
    indices (fun _ => some 0) 0 1 = .panicked .randIntArgNotPositive ∧
    indices (fun _ => some 0) 5 (-1) = .panicked .makesliceLenOutOfRange := by
  refine ⟨?_, ?_, ?_, ?_⟩ <;> rfl

/-- C4, amended: `indices` validates neither argument. For `n = 0` it returns the empty
slice with a nil error whatever `total` is; for `n < 0` it panics in `make`; for
`total <= 0` and `n >= 1` it panics in `rand.Int`. The only error it returns is the
failure of the random source: every error returned is the `rand.Int err` one, and it is
returned whenever one of the `n` draws out of `total >= 2` fails. -/
theorem indices_no_range_check (rd : RandReader) (total n : Int) :
    (n = 0 → indices rd total n = .ok []) ∧
    (n < 0 → indices rd total n = .panicked .makesliceLenOutOfRange) ∧
    (total ≤ 0 → 1 ≤ n → indices rd total n = .panicked .randIntArgNotPositive) ∧
    (∀ e, indices rd total n = .error e → e = .randInt) ∧
    (2 ≤ total → (∃ i : Nat, (i : Int) < n ∧ rd i = none) →
      indices rd total n = .error .randInt) := by
  refine ⟨?_, ?_, ?_, ?_, ?_⟩
  · intro h
    subst h
    rfl
  · intro h
    simp [indices, h]
  · intro ht hn
    have hneg : ¬ n < 0 := by omega
    obtain ⟨k, hk⟩ : ∃ k, n.toNat = k + 1 := ⟨n.toNat - 1, by omega⟩
    simp [indices, hneg, hk, indicesFill, randInt, ht]
  · intro e h
    unfold indices at h
    split at h
    · exact absurd h (by simp)
    · split at h
      · exact absurd h (by simp)
      · rename_i e' hfill
        simp only [Outcome.error.injEq] at h
        rw [← h]
        exact indicesFill_error_eq rd total _ _ _ _ hfill
      · exact absurd h (by simp)
  · intro ht hfail
    obtain ⟨i, hi, hnone⟩ := hfail
    have hneg : ¬ n < 0 := by omega
    have hfill := indicesFill_reader_fails rd total ht n.toNat 0 (List.replicate n.toNat 0)
      ⟨i, Nat.zero_le _, by omega, hnone⟩
    simp [indices, hneg, hfill]

/-- Witness of the amended C4: `total = 0`, `n = 2` panics in `rand.Int`, and with
`total = 3`, `n = 2` a reader that fails on the second draw gives the `rand.Int err`
error. -/
theorem indices_no_range_check_witness :
    indices (fun _ => some 0) 0 2 = .panicked .randIntArgNotPositive ∧
    indices (fun i => if i = 1 then none else some 2) 3 2 = .error .randInt :=
  ⟨(indices_no_range_check (fun _ => some 0) 0 2).2.2.1 (by decide) (by decide),
    (indices_no_range_check (fun i => if i = 1 then none else some 2) 3 2).2.2.2.2
      (by decide) ⟨1, by decide, rfl⟩⟩

/-! ## Lemmas on slices -/

theorem take_one_drop {α : Type} :
    ∀ (l : List α) (n : Nat) (h : n < l.length), (l.drop n).take 1 = [l[n]]
  | [], _, h => by simp at h
  | _ :: _, 0, _ => by simp
  | _ :: l, n + 1, h => by
    simpa using take_one_drop l n (by simpa using h)

theorem take_succ_set {α : Type} (a : α) :
    ∀ (l : List α) (i : Nat), i < l.length → (l.set i a).take (i + 1) = l.take i ++ [a]
  | [], _, h => by simp at h
  | _ :: _, 0, _ => by simp
  | _ :: l, i + 1, h => by
    simpa using take_succ_set a l i (by simpa using h)

theorem drop_set_lt {α : Type} (a : α) :
    ∀ (l : List α) (i n : Nat), i < n → (l.set i a).drop n = l.drop n
  | [], _, _, _ => by simp
  | _ :: _, _, 0, h => by omega
  | _ :: _, 0, n + 1, _ => by simp
  | _ :: l, i + 1, n + 1, h => by
    simpa using drop_set_lt a l i n (by omega)

/-! ## Lemmas on the fetch loop -/

theorem SkipRows_forward {V : Type} (pr : ParquetReader V) (p : Nat)
    (h1 : pr.pos ≤ p) (h2 : p < pr.rows.length) :
    SkipRows pr ((p : Int) - (pr.pos : Int))
      = .ok { pr with pos := p, skipped := pr.skipped + (p - pr.pos) } := by
  unfold SkipRows
  by_cases h : (p : Int) - (pr.pos : Int) ≤ 0
  · have hp : p = pr.pos := by omega
    simp [h, hp]
  · have hk : min ((p : Int) - (pr.pos : Int)).toNat (pr.rows.length - pr.pos) = p - pr.pos := by
      omega
    have hpos : pr.pos + (p - pr.pos) = p := by omega
    simp only [h, if_false, hk, hpos]

theorem ReadByNumber_one {V : Type} (pr : ParquetReader V) (h : pr.pos < pr.rows.length) :
    ReadByNumber pr 1
      = .ok ({ pr with pos := pr.pos + 1, decoded := pr.decoded + 1 }, [pr.rows[pr.pos]]) := by
  have hsl : (pr.rows.drop pr.pos).take 1 = [pr.rows[pr.pos]] := take_one_drop _ _ h
  simp [ReadByNumber, hsl]

theorem fetchLoop_strict {V : Type} (gx : Nat → String) :
    ∀ (ps : List Nat) (i : Nat) (pr : ParquetReader V) (rows : List (GoMap V)),
      ps.Pairwise (fun a b => a < b) →
      (∀ p ∈ ps, pr.pos ≤ p ∧ p < pr.rows.length) →
      i + ps.length ≤ rows.length →
      ∃ pr', fetchLoop gx (ps.map Int.ofNat) i (pr.pos : Int) pr rows
          = .ok (pr', rows.take i ++ ps.map (recordAt gx pr.rows) ++ rows.drop (i + ps.length)) ∧
        pr'.rows = pr.rows ∧
        pr'.pos = (ps.getLast?.map (fun p => p + 1)).getD pr.pos ∧
        pr'.skipped + pr'.decoded + pr.pos = pr.skipped + pr.decoded + pr'.pos := by
  intro ps
  induction ps with
  | nil =>
    intro i pr rows _ _ _
    exact ⟨pr, by simp [fetchLoop], rfl, rfl, rfl⟩
  | cons p ps ih =>
    intro i pr rows hsorted hrange hlen
    obtain ⟨hp1, hp2⟩ := hrange p (List.mem_cons_self p ps)
    rw [List.pairwise_cons] at hsorted
    simp only [List.length_cons] at hlen
    have hi : i < rows.length := by omega
    let pr1 : ParquetReader V := { pr with pos := p, skipped := pr.skipped + (p - pr.pos) }
    let pr2 : ParquetReader V := { pr1 with pos := p + 1, decoded := pr.decoded + 1 }
    have hread : ReadByNumber pr1 1 = .ok (pr2, [pr.rows[p]]) := ReadByNumber_one pr1 hp2
    have hstep : fetchLoop gx ((p :: ps).map Int.ofNat) i (pr.pos : Int) pr rows
        = fetchLoop gx (ps.map Int.ofNat) (i + 1) ((p + 1 : Nat) : Int) pr2
            (rows.set i (rowObjAsMap gx pr.rows[p])) := by
      simp only [List.map_cons, fetchLoop, Int.ofNat_eq_coe, SkipRows_forward pr p hp1 hp2]
      rw [show ({ pr with pos := p, skipped := pr.skipped + (p - pr.pos) } : ParquetReader V)
        = pr1 from rfl, hread]
      simp [hi]
    obtain ⟨pr', hrun, hrows, hpos, hwork⟩ :=
      ih (i + 1) pr2 (rows.set i (rowObjAsMap gx pr.rows[p])) hsorted.2
        (fun q hq => ⟨by have := hsorted.1 q hq; show p + 1 ≤ q; omega,
          (hrange q (List.mem_cons_of_mem p hq)).2⟩)
        (by simp only [List.length_set]; omega)
    refine ⟨pr', ?_, hrows, ?_, ?_⟩
    · rw [hstep, hrun]
      have hrec : recordAt gx pr.rows p = rowObjAsMap gx pr.rows[p] := by
        simp [recordAt, List.getD_eq_getElem?_getD, List.getElem?_eq_getElem hp2]
      have htake : (rows.set i (rowObjAsMap gx pr.rows[p])).take (i + 1)
          = rows.take i ++ [rowObjAsMap gx pr.rows[p]] := take_succ_set _ rows i hi
      have hdrop : (rows.set i (rowObjAsMap gx pr.rows[p])).drop (i + 1 + ps.length)
          = rows.drop (i + (ps.length + 1)) := by
        rw [drop_set_lt _ rows i _ (by omega)]
        congr 1
        omega
      show Outcome.ok (pr', _ ++ List.map (recordAt gx pr.rows) ps ++ _) = _
      rw [htake, hdrop, List.map_cons, hrec]
      simp
    · rw [hpos]
      cases ps with
      | nil => simp [pr2]
      | cons q qs =>
        obtain ⟨x, hx⟩ : ∃ x, (q :: qs).getLast? = some x :=
          ⟨_, List.getLast?_eq_getLast _ (List.cons_ne_nil q qs)⟩
        rw [List.getLast?_cons_cons, hx]
        rfl
    · have h1 : pr2.pos = p + 1 := rfl
      have h2 : pr2.skipped = pr.skipped + (p - pr.pos) := rfl
      have h3 : pr2.decoded = pr.decoded + 1 := rfl
      omega

theorem fetchLoop_length {V : Type} (gx : Nat → String) :
    ∀ (ind : List Int) (i : Nat) (last : Int) (pr : ParquetReader V) (rows : List (GoMap V))
      (pr' : ParquetReader V) (rows' : List (GoMap V)),
      fetchLoop gx ind i last pr rows = .ok (pr', rows') → rows'.length = rows.length := by
  intro ind
  induction ind with
  | nil =>
    intro i last pr rows pr' rows' h
    simp only [fetchLoop, Outcome.ok.injEq, Prod.mk.injEq] at h
    rw [← h.2]
  | cons j ind ih =>
    intro i last pr rows pr' rows' h
    simp only [fetchLoop] at h
    split at h
    · exact absurd h (by simp)
    · exact absurd h (by simp)
    · split at h
      · exact absurd h (by simp)
      · exact absurd h (by simp)
      · split at h
        · exact absurd h (by simp)
        · split at h
          · rw [ih _ _ _ _ _ _ h, List.length_set]
          · exact absurd h (by simp)

theorem shape_ok {ρ : Type} (rows : List ρ) (r : Sample ρ) (h : shape rows = .ok r) :
    (rows.length = 1 → ∃ record, r = .single record) ∧ (1 < rows.length → r = .many rows) := by
  unfold shape at h
  split at h
  · rename_i hlen
    simp only [Outcome.ok.injEq] at h
    exact ⟨fun h1 => by omega, fun _ => h.symm⟩
  · rename_i hlen
    split at h
    · simp only [Outcome.ok.injEq] at h
      exact ⟨fun _ => ⟨_, h.symm⟩, fun h1 => absurd h1 hlen⟩
    · exact absurd h (by simp)

/-! ## Claims on the fetch loop of `parquetRow` -/

/-- C2: for every file and every strictly ascending list of positions `ps`, all below
the number of rows, the fetch loop of `parquetRow` (cursor at 0, `rows` made with one
slot for each position) returns normally with as many records as positions, the `i`-th
of which is the record of the row that direct indexing at `ps[i]` into the list of all
rows gives. -/
theorem fetch_ascending_matches_direct_index {V : Type} (pf : ParquetFile V) (ps : List Nat)
    (hasc : ps.Pairwise (fun a b => a < b))
    (hrange : ∀ p ∈ ps, p < pf.rowGroups.flatten.length) :
    ∃ pr rs,
      fetchLoop pf.getExName (ps.map Int.ofNat) 0 0 (NewParquetReader pf)
        (List.replicate ps.length []) = .ok (pr, rs) ∧
      rs.length = ps.length ∧
      ∀ (i p : Nat), ps[i]? = some p →
        ∃ row, pf.rowGroups.flatten[p]? = some row ∧
          rs[i]? = some (rowObjAsMap pf.getExName row) := by
  obtain ⟨pr, hrun, -, -, -⟩ :=
    fetchLoop_strict pf.getExName ps 0 (NewParquetReader pf) (List.replicate ps.length [])
      hasc (fun p hp => ⟨Nat.zero_le _, hrange p hp⟩) (by simp)
  refine ⟨pr, ps.map (recordAt pf.getExName pf.rowGroups.flatten), ?_, by simp, ?_⟩
  · have h0 : ((NewParquetReader pf).pos : Int) = 0 := rfl
    rw [h0] at hrun
    rw [hrun]
    simp [NewParquetReader]
  · intro i p hp
    have hlt : p < pf.rowGroups.flatten.length := hrange p (List.getElem?_mem hp)
    refine ⟨pf.rowGroups.flatten[p], List.getElem?_eq_getElem hlt, ?_⟩
    simp [List.getElem?_map, hp, recordAt, List.getD_eq_getElem?_getD,
      List.getElem?_eq_getElem hlt]

/-- Witness of C2: positions 0 and 2 of a file of two row groups. -/
theorem fetch_ascending_matches_direct_index_witness :
    ∃ pr rs,
      fetchLoop (fun _ => "id") ([0, 2].map Int.ofNat) 0 0
        (NewParquetReader (⟨[[[10], [11]], [[12]]], fun _ => "id"⟩ : ParquetFile Nat))
        (List.replicate 2 []) = .ok (pr, rs) ∧
      rs.length = 2 ∧
      ∀ (i p : Nat), [0, 2][i]? = some p →
        ∃ row, [[[10], [11]], [[12]]].flatten[p]? = some row ∧
          rs[i]? = some (rowObjAsMap (fun _ => "id") row) :=
  fetch_ascending_matches_direct_index
    (⟨[[[10], [11]], [[12]]], fun _ => "id"⟩ : ParquetFile Nat) [0, 2]
    (by decide) (by decide)

/-- For strictly ascending positions below `total`, itself at most the number of rows of
the file, the fetch loop ends normally and the rows skipped plus the rows decoded are
one more than the last position, hence at most `total`. -/
theorem fetch_work_strictly_ascending {V : Type} (pf : ParquetFile V) (ps : List Nat)
    (total : Nat) (hasc : ps.Pairwise (fun a b => a < b)) (hrange : ∀ p ∈ ps, p < total)
    (htotal : total ≤ pf.rowGroups.flatten.length) :
    ∃ pr rs,
      fetchLoop pf.getExName (ps.map Int.ofNat) 0 0 (NewParquetReader pf)
        (List.replicate ps.length []) = .ok (pr, rs) ∧
      pr.skipped + pr.decoded = (ps.getLast?.map (fun p => p + 1)).getD 0 ∧
      pr.skipped + pr.decoded ≤ total := by
  obtain ⟨pr, hrun, -, hpos, hwork⟩ :=
    fetchLoop_strict pf.getExName ps 0 (NewParquetReader pf) (List.replicate ps.length [])
      hasc (fun p hp => ⟨Nat.zero_le _, lt_of_lt_of_le (hrange p hp) htotal⟩) (by simp)
  have h0 : ((NewParquetReader pf).pos : Int) = 0 := rfl
  have hp0 : (NewParquetReader pf).pos = 0 := rfl
  have hs0 : (NewParquetReader pf).skipped = 0 := rfl
  have hd0 : (NewParquetReader pf).decoded = 0 := rfl
  rw [h0] at hrun
  rw [hp0] at hpos
  have hsum : pr.skipped + pr.decoded = (ps.getLast?.map (fun p => p + 1)).getD 0 := by
    rw [← hpos]
    omega
  refine ⟨pr, _, hrun, hsum, ?_⟩
  rw [hsum]
  cases hlast : ps.getLast? with
  | none => simp
  | some q =>
    have hq : q < total := hrange q (List.mem_of_getLast?_eq_some hlast)
    simp only [Option.map_some', Option.getD_some]
    omega

/-- C5, the code on a repeated position: on a file of the two rows `[10]` and `[11]`
with both draws equal to 0, the positions are `[0, 0]` and `parquetRow` returns the
record of row 0 followed by the record of row 1. The second record is not the record of
the position drawn, which direct indexing gives as the one of row 0. On a file of the
one row `[10]` the second `ReadByNumber` returns no row and `sl[0]` panics. -/
theorem parquetRow_repeated_position :
    indices (fun _ => some 0) 2 2 = .ok [0, 0] ∧
    parquetRowOf (fun _ => some 0) (⟨[[[10], [11]]], fun _ => "id"⟩ : ParquetFile Nat) 2
      = .ok (.many [[("id", 10)], [("id", 11)]]) ∧
    recordAt (fun _ => "id") [[10], [11]] 0 = [("id", 10)] ∧
    parquetRowOf (fun _ => some 0) (⟨[[[10]]], fun _ => "id"⟩ : ParquetFile Nat) 2
      = .panicked (.indexOutOfRange 0 0) := by
  decide

/-- C8, the code on repeated positions: the file has the row groups `[10], [11]` and
`[12]`, so that the total of `parquetRow` is 2; with three draws equal to 0 the positions
are `[0, 0, 0]`, and the loop ends normally after decoding three rows, more than the
total. -/
theorem fetch_work_repeated_positions :
    indices (fun _ => some 0) 2 3 = .ok [0, 0, 0] ∧
    fetchLoop (fun _ => "id") [0, 0, 0] 0 0
        (NewParquetReader (⟨[[[10], [11]], [[12]]], fun _ => "id"⟩ : ParquetFile Nat))
        (List.replicate 3 [])
      = .ok (⟨[[10], [11], [12]], 3, 0, 3⟩, [[("id", 10)], [("id", 11)], [("id", 12)]]) ∧
    [[10], [11]].length < 0 + 3 := by
  decide

/-! ## Lemmas on `csvRow` -/

theorem store_absent {V : Type} (c : String) (v : V) :
    ∀ (m : GoMap V), c ∉ GoMap.keys m → GoMap.store m c v = m ++ [(c, v)]
  | [], _ => rfl
  | (k', v') :: m, h => by
    have hne : ¬ k' = c := fun e => h (by simp [GoMap.keys, e])
    have hm : c ∉ GoMap.keys m := fun e => h (by simp [GoMap.keys] at e ⊢; exact Or.inr e)
    simp [GoMap.store, hne, store_absent c v m hm]

theorem csvRecordFill_nodup (columns : List String) (hnodup : columns.Nodup) :
    ∀ (fields : List String) (k : Nat) (m : GoMap String),
      k + fields.length ≤ columns.length → GoMap.keys m = columns.take k →
      csvRecordFill columns fields k m = .ok (m ++ (columns.drop k).zip fields) := by
  intro fields
  induction fields with
  | nil =>
    intro k m _ _
    simp [csvRecordFill]
  | cons v fields ih =>
    intro k m hlen hkeys
    simp only [List.length_cons] at hlen
    have hk : k < columns.length := by omega
    have habsent : columns[k] ∉ GoMap.keys m := by
      rw [hkeys]
      intro hmem
      obtain ⟨n, hn, heq⟩ := List.getElem_of_mem hmem
      rw [List.getElem_take] at heq
      simp only [List.length_take] at hn
      have := (List.Nodup.getElem_inj_iff hnodup).1 heq
      omega
    have hkeys' : GoMap.keys (m ++ [(columns[k], v)]) = columns.take (k + 1) := by
      simp only [GoMap.keys, List.map_append, List.map_cons, List.map_nil] at hkeys ⊢
      rw [hkeys, List.take_succ, List.getElem?_eq_getElem hk]
      rfl
    simp only [csvRecordFill, List.getElem?_eq_getElem hk, store_absent _ _ m habsent]
    have hdrop : columns.drop k = columns[k] :: columns.drop (k + 1) :=
      List.drop_eq_getElem_cons hk
    rw [ih (k + 1) _ (by omega) hkeys', hdrop]
    simp only [List.zip_cons_cons, List.append_assoc, List.singleton_append]

theorem load_zip (columns : List String) :
    ∀ (fields : List String) (k : Nat) (c : String), columns.Nodup →
      columns[k]? = some c → GoMap.load (columns.zip fields) c = fields[k]? := by
  induction columns with
  | nil =>
    intro fields k c _ h
    simp at h
  | cons c' columns ih =>
    intro fields k c hnodup h
    rw [List.nodup_cons] at hnodup
    cases fields with
    | nil => simp [GoMap.load]
    | cons f fields =>
      cases k with
      | zero =>
        simp only [List.getElem?_cons_zero, Option.some.injEq] at h
        simp [GoMap.load, h]
      | succ k =>
        simp only [List.getElem?_cons_succ] at h
        have hne : ¬ c' = c := fun e => hnodup.1 (e ▸ List.getElem?_mem h)
        simp only [List.zip_cons_cons, GoMap.load, hne, if_false, List.getElem?_cons_succ]
        exact ih fields k c hnodup.2 h

theorem csvLoop_length (columns : List String) (allRows : List (List String)) :
    ∀ (ind : List Int) (i : Nat) (rows rows' : List (GoMap String)),
      csvLoop columns allRows ind i rows = .ok rows' → rows'.length = rows.length := by
  intro ind
  induction ind with
  | nil =>
    intro i rows rows' h
    simp only [csvLoop, Outcome.ok.injEq] at h
    rw [← h]
  | cons j ind ih =>
    intro i rows rows' h
    simp only [csvLoop] at h
    split at h
    · exact absurd h (by simp)
    · split at h
      · exact absurd h (by simp)
      · exact absurd h (by simp)
      · split at h
        · rw [ih _ _ _ h, List.length_set]
        · exact absurd h (by simp)

theorem indices_ok_nonneg (rd : RandReader) (total n : Int) (sl : List Int)
    (h : indices rd total n = .ok sl) : 0 ≤ n := by
  unfold indices at h
  split at h
  · exact absurd h (by simp)
  · omega

theorem shape_of_length {ρ : Type} (rows : List ρ) (num : Int) (hnum : 0 ≤ num)
    (hlen : rows.length = num.toNat) (r : Sample ρ) (h : shape rows = .ok r) :
    (num = 1 → ∃ record, r = .single record) ∧
    (1 < num → ∃ rs, r = .many rs ∧ (rs.length : Int) = num) := by
  obtain ⟨h1, h2⟩ := shape_ok rows r h
  have hcast : (rows.length : Int) = num := by omega
  exact ⟨fun hn => h1 (by omega), fun hn => ⟨rows, h2 (by omega), hcast⟩⟩

/-! ## Claims on `csvRow` and on the shape of the result -/

/-- C3: whenever `parquetRow` or `csvRow` returns normally, the value returned for
`num = 1` is one bare record, and the value returned for `num > 1` is a slice of
exactly `num` records; this holds for every random source, so for all positions
drawn. -/
theorem result_shape {V : Type} (env : Env V) (fp : String) (num : Int) (delimiter : String) :
    (∀ r, parquetRow env fp num = .ok r →
      (num = 1 → ∃ record, r = .single record) ∧
      (1 < num → ∃ rs, r = .many rs ∧ (rs.length : Int) = num)) ∧
    (∀ r, csvRow env fp num delimiter = .ok r →
      (num = 1 → ∃ record, r = .single record) ∧
      (1 < num → ∃ rs, r = .many rs ∧ (rs.length : Int) = num)) := by
  constructor
  · intro r h
    unfold parquetRow at h
    split at h
    · exact absurd h (by simp)
    · exact absurd h (by simp)
    · rename_i pf _
      unfold parquetRowOf at h
      split at h
      · exact absurd h (by simp)
      · split at h
        · exact absurd h (by simp)
        · exact absurd h (by simp)
        · rename_i ind hind
          have hnum := indices_ok_nonneg _ _ _ _ hind
          split at h
          · omega
          · split at h
            · exact absurd h (by simp)
            · exact absurd h (by simp)
            · rename_i pr rows hloop
              have hlen := fetchLoop_length _ _ _ _ _ _ _ _ hloop
              rw [List.length_replicate] at hlen
              exact shape_of_length rows num hnum hlen r h
  · intro r h
    unfold csvRow at h
    split at h
    · exact absurd h (by simp)
    · unfold csvRowOf at h
      split at h
      · exact absurd h (by simp)
      · exact absurd h (by simp)
      · split at h
        · exact absurd h (by simp)
        · exact absurd h (by simp)
        · rename_i ind hind
          have hnum := indices_ok_nonneg _ _ _ _ hind
          split at h
          · omega
          · split at h
            · exact absurd h (by simp)
            · exact absurd h (by simp)
            · rename_i rows hloop
              have hlen := csvLoop_length _ _ _ _ _ _ hloop
              rw [List.length_replicate] at hlen
              exact shape_of_length rows num hnum hlen r h

/-- Witness of C3: two rows out of a parquet file of three rows, positions 0 and 1. -/
theorem result_shape_witness :
    parquetRow (⟨fun i => some i, fun _ => some (some ⟨[[[10], [11], [12]]], fun _ => "id"⟩),
        fun _ => none, fun _ _ => none⟩ : Env Nat) "data.parquet" 2
      = .ok (.many [[("id", 10)], [("id", 11)]]) ∧
    ∃ rs, Sample.many [[("id", 10)], [("id", 11)]] = Sample.many rs ∧ (rs.length : Int) = 2 :=
  ⟨by decide,
    ((result_shape (⟨fun i => some i, fun _ => some (some ⟨[[[10], [11], [12]]], fun _ => "id"⟩),
        fun _ => none, fun _ _ => none⟩ : Env Nat) "data.parquet" 2 "").1 _ (by decide)).2
      (by decide)⟩

/-- C6, as stated, fails: for the header `a,a` and the data row `1,2` the record that
`csvRow` builds has one field, not two, and the value under the name of column 0 is
`2`, the field of column 1. -/
theorem csvRow_duplicate_header_counterexample :
    csvLoop ["a", "a"] [["1", "2"]] [0] 0 [[]] = .ok [[("a", "2")]] ∧
    [("a", "2")].length ≠ ["a", "a"].length ∧
    GoMap.load [("a", "2")] "a" ≠ some "1" := by
  decide

/-- C6, amended: when the column names of the header are pairwise distinct, the record
that `csvRow` builds for a position `p` below the number of data rows (each data row
having as many fields as the header, which the reader of `encoding/csv` enforces) has
exactly the column names of the header as its field names, as many fields as the header
has columns, and under the `k`-th column name the `k`-th field of data row `p`. -/
theorem csvRow_record_fields (columns : List String) (allRows : List (List String))
    (p : Nat) (hnodup : columns.Nodup)
    (hrect : ∀ row ∈ allRows, row.length = columns.length) (hp : p < allRows.length) :
    ∃ row record, allRows[p]? = some row ∧
      csvLoop columns allRows [(p : Int)] 0 [[]] = .ok [record] ∧
      GoMap.keys record = columns ∧ record.length = columns.length ∧
      ∀ (k : Nat) (c : String), columns[k]? = some c →
        ∃ v, row[k]? = some v ∧ GoMap.load record c = some v := by
  have hrow : allRows[p].length = columns.length := hrect _ (List.getElem_mem _)
  have hfill : csvRecord columns allRows[p] = .ok (columns.zip allRows[p]) := by
    have := csvRecordFill_nodup columns hnodup allRows[p] 0 [] (by omega) rfl
    simpa [csvRecord] using this
  refine ⟨allRows[p], columns.zip allRows[p], List.getElem?_eq_getElem hp, ?_, ?_, ?_, ?_⟩
  · have hidx : index allRows (p : Int) = some allRows[p] := by
      simp [index, List.getElem?_eq_getElem hp]
    simp [csvLoop, hidx, hfill]
  · simp only [GoMap.keys]
    rw [← List.unzip_fst, List.unzip_zip hrow.symm]
  · simp [hrow]
  · intro k c hc
    have hk : k < allRows[p].length := by
      rw [hrow]
      exact (List.getElem?_eq_some_iff.1 hc).1
    exact ⟨allRows[p][k], List.getElem?_eq_getElem hk, by
      rw [load_zip columns allRows[p] k c hnodup hc, List.getElem?_eq_getElem hk]⟩

/-- Witness of the amended C6: header `name,id`, second data row. -/
theorem csvRow_record_fields_witness :
    ∃ row record, [["ann", "0"], ["bob", "1"]][1]? = some row ∧
      csvLoop ["name", "id"] [["ann", "0"], ["bob", "1"]] [((1 : Nat) : Int)] 0 [[]]
        = .ok [record] ∧
      GoMap.keys record = ["name", "id"] ∧ record.length = ["name", "id"].length ∧
      ∀ (k : Nat) (c : String), ["name", "id"][k]? = some c →
        ∃ v, row[k]? = some v ∧ GoMap.load record c = some v :=
  csvRow_record_fields ["name", "id"] [["ann", "0"], ["bob", "1"]] 1
    (by decide) (by decide) (by decide)

/-- C7, as stated, fails: when `ReadAll` returns no record and a nil error (an empty
file), `csvRow` returns no error to the caller; it panics with index out of range at the
load `allRows[0]` of the header. -/
theorem csvRow_empty_table_counterexample :
    csvRow (⟨fun _ => some 0, fun _ => none, fun _ => some (fun _ => some []),
        fun _ _ => none⟩ : Env Nat) "data.csv" 1 ""
      = .panicked (.indexOutOfRange 0 0) := by
  decide

/-- C7, amended: `csvRow` returns the error of `ReadAll` to the caller when `ReadAll`
fails, without going on to the header; when `ReadAll` returns an empty table and a nil
error, `csvRow` returns no error but panics with index out of range at the load of the
header, before any position is drawn. -/
theorem csvRow_empty_table {V : Type} (env : Env V) (fp : String) (num : Int)
    (delimiter : String) (readAll : Char → Option (List (List String)))
    (hopen : env.csvFile fp = some readAll) :
    (readAll (comma delimiter) = none → csvRow env fp num delimiter = .error .readAll) ∧
    (readAll (comma delimiter) = some [] →
      csvRow env fp num delimiter = .panicked (.indexOutOfRange 0 0)) := by
  constructor
  · intro h
    simp [csvRow, hopen, h, csvRowOf]
  · intro h
    simp [csvRow, hopen, h, csvRowOf]

/-- Witness of the amended C7: an empty file read with the delimiter `|`. -/
theorem csvRow_empty_table_witness :
    csvRow (⟨fun _ => none, fun _ => none, fun _ => some (fun _ => some []),
        fun _ _ => none⟩ : Env Nat) "data.csv" 3 "|"
      = .panicked (.indexOutOfRange 0 0) :=
  (csvRow_empty_table (⟨fun _ => none, fun _ => none, fun _ => some (fun _ => some []),
      fun _ _ => none⟩ : Env Nat) "data.csv" 3 "|" (fun _ => some []) rfl).2 rfl

/-! ## Lemmas on the root command -/

theorem splitDot_ne_nil : ∀ (s : List Char), splitDot s ≠ []
  | [] => by simp [splitDot]
  | c :: cs => by
    unfold splitDot
    split
    · simp
    · split <;> simp

theorem splitDot_no_dot : ∀ (s : List Char), '.' ∉ s → splitDot s = [s]
  | [], _ => rfl
  | c :: cs, h => by
    have hc : ¬ c = '.' := fun e => h (by simp [e])
    have hcs : '.' ∉ cs := fun e => h (List.mem_cons_of_mem c e)
    simp [splitDot, hc, splitDot_no_dot cs hcs]

theorem splitDot_append (suf : List Char) :
    ∀ (pre : List Char), splitDot (pre ++ '.' :: suf) = splitDot pre ++ splitDot suf
  | [] => by simp [splitDot]
  | c :: pre => by
    have ih := splitDot_append suf pre
    by_cases hc : c = '.'
    · simp [splitDot, hc, ih]
    · obtain ⟨part, parts, hparts⟩ : ∃ part parts, splitDot pre = part :: parts := by
        cases h : splitDot pre with
        | nil => exact absurd h (splitDot_ne_nil pre)
        | cons part parts => exact ⟨part, parts, rfl⟩
      simp [splitDot, hc, ih, hparts]

theorem getLast_splitDot (fp pre suf : List Char) (hsuf : '.' ∉ suf)
    (hfp : fp = suf ∨ fp = pre ++ '.' :: suf) : (splitDot fp).getLast? = some suf := by
  rcases hfp with h | h
  · rw [h, splitDot_no_dot suf hsuf]
    rfl
  · rw [h, splitDot_append, splitDot_no_dot suf hsuf, List.getLast?_append]
    rfl

/-! ## Claims on the root command -/

/-- C9, as stated, fails: the path `csv` has no `.`, hence no text after a last `.`,
and is one of the other paths for which the claim has the command fail with the
unrecognized-extension error. The command takes the delimited-text path, samples a row
and prints it. -/
theorem runE_no_dot_counterexample :
    '.' ∉ "csv".data ∧
    dispatch (⟨fun _ => some 0, fun _ => none, fun _ => some (fun _ => some [["a"], ["1"]]),
        fun _ _ => some "row"⟩ : Env Nat) "csv" "csv".data 1 ""
      = .ok (.delimited (.single [("a", "1")])) ∧
    runE (⟨fun _ => some 0, fun _ => none, fun _ => some (fun _ => some [["a"], ["1"]]),
        fun _ _ => some "row"⟩ : Env Nat) "csv" false "" 1 = .ok "row" := by
  decide

/-- C9, amended: let `suf` be the text after the last `.` of the path, or the whole path
when it has no `.`. If `suf` is `parquet` or `parq` the command goes on with the result
of `parquetRow`; if it is `csv`, with the result of `csvRow`; for every other path it
returns the unrecognized-extension error that names the path, whatever the files and the
random source are, and prints nothing. -/
theorem runE_dispatch {V : Type} (env : Env V) (fp : String) (pretty : Bool)
    (delimiter : String) (num : Int) (pre suf : List Char) (hsuf : '.' ∉ suf)
    (hfp : fp.data = suf ∨ fp.data = pre ++ '.' :: suf) :
    (suf = "parquet".data ∨ suf = "parq".data →
      runE env fp pretty delimiter num =
        match parquetRow env fp num with
        | .ok rows => emit env pretty (.columnar rows)
        | .error e => .error e
        | .panicked c => .panicked c) ∧
    (suf = "csv".data →
      runE env fp pretty delimiter num =
        match csvRow env fp num delimiter with
        | .ok rows => emit env pretty (.delimited rows)
        | .error e => .error e
        | .panicked c => .panicked c) ∧
    (suf ≠ "parquet".data → suf ≠ "parq".data → suf ≠ "csv".data →
      runE env fp pretty delimiter num = .error (.unrecognizedExtension fp)) := by
  have hext := getLast_splitDot fp.data pre suf hsuf hfp
  refine ⟨?_, ?_, ?_⟩
  · intro h
    simp only [runE, hext, dispatch, h, if_true]
    cases parquetRow env fp num <;> rfl
  · intro h
    have hne : ¬ (suf = "parquet".data ∨ suf = "parq".data) := by
      rw [h]
      decide
    simp only [runE, hext, dispatch, hne, if_false]
    simp only [h, if_true]
    cases csvRow env fp num delimiter <;> rfl
  · intro h1 h2 h3
    simp [runE, hext, dispatch, h1, h2, h3]

/-- Witness of the amended C9: the path `data.txt` of the test `TestUnrecognizedFileType`. -/
theorem runE_dispatch_witness :
    runE (⟨fun _ => some 0, fun _ => none, fun _ => none, fun _ _ => none⟩ : Env Nat)
      "data.txt" false "" 1 = .error (.unrecognizedExtension "data.txt") :=
  (runE_dispatch (⟨fun _ => some 0, fun _ => none, fun _ => none, fun _ _ => none⟩ : Env Nat)
    "data.txt" false "" 1 "data".data "txt".data (by decide) (Or.inr (by decide))).2.2
    (by decide) (by decide) (by decide)

/-! ## Lemmas on `asciiRange` -/

theorem asciiRangeFill_fuel (min n : Nat) (hn : n ≤ 255) :
    ∀ (fuel i : Nat) (result : List Nat), i ≤ n → n - i ≤ fuel → result.length = n →
      asciiRangeFill min n fuel i result
        = result.take i ++ (List.range' i (n - i)).map (fun j => (min + j) % 256) := by
  intro fuel
  induction fuel with
  | zero =>
    intro i result hi hfuel hlen
    have hin : i = n := by omega
    simp [asciiRangeFill, hin, ← hlen]
  | succ fuel ih =>
    intro i result hi hfuel hlen
    by_cases hlt : i < n
    · have hmod : (i + 1) % 256 = i + 1 := Nat.mod_eq_of_lt (by omega)
      have hsub : n - i = (n - (i + 1)) + 1 := by omega
      simp only [asciiRangeFill, hlt, if_true, hmod]
      rw [ih (i + 1) _ (by omega) (by omega) (by simp [hlen]),
        take_succ_set _ result i (by omega), hsub, List.range'_succ]
      simp
    · have hin : i = n := by omega
      simp [asciiRangeFill, hin, ← hlen]

/-! ## Claims on `asciiRange` -/

/-- C10, as stated, fails: for `min = 0` and `max = 255` the length `max - min + 1`
wraps to 0 in `uint8`, and `asciiRange` returns the empty string instead of the 256
bytes from 0 to 255. -/
theorem asciiRange_full_range_counterexample :
    asciiRange 0 255 = [] ∧ (asciiRange 0 255).length ≠ 255 - 0 + 1 := by
  decide

/-- C10, amended: for every pair of bytes `min <= max` other than `(0, 255)`,
`asciiRange min max` is the string of length `max - min + 1` whose `i`-th byte is
`min + i`; `Digits` is `0123456789`, `UppercaseAlpha` is `A` to `Z`, `LowercaseAlpha` is
`a` to `z`, and `VisibleASCII` is the 94 bytes from 33 to 126. -/
theorem asciiRange_bytes :
    (∀ min max : Nat, min ≤ max → max ≤ 255 → ¬ (min = 0 ∧ max = 255) →
      asciiRange min max = (List.range (max - min + 1)).map (fun i => min + i)) ∧
    Digits = bytes "0123456789" ∧
    UppercaseAlpha = bytes "ABCDEFGHIJKLMNOPQRSTUVWXYZ" ∧
    LowercaseAlpha = bytes "abcdefghijklmnopqrstuvwxyz" ∧
    VisibleASCII = (List.range 94).map (fun i => 33 + i) := by
  refine ⟨?_, by decide, by decide, by decide, by decide⟩
  intro min max hle hmax hfull
  have hn : ((max + 256 - min) % 256 + 1) % 256 = max - min + 1 := by omega
  unfold asciiRange
  simp only [hn]
  rw [asciiRangeFill_fuel min (max - min + 1) (by omega) 256 0 _ (Nat.zero_le _) (by omega)
    (by simp)]
  simp only [List.take_zero, List.nil_append, Nat.sub_zero, List.range_eq_range']
  apply List.map_congr_left
  intro j hj
  rw [List.mem_range'_1] at hj
  exact Nat.mod_eq_of_lt (by omega)

/-- Witness of the amended C10: the range of the digits. -/
theorem asciiRange_bytes_witness :
    asciiRange 48 57 = (List.range (57 - 48 + 1)).map (fun i => 48 + i) :=
  asciiRange_bytes.1 48 57 (by decide) (by decide) (by decide)

end Taste
